import Mathlib

/-!
# Verification of the pugo repository

Shallow embedding of the pugo source (Go) into Lean 4:

* `Pugo.Site` with `AddAdmin` / `RemoveAdmin` / `Save` / `MarkAsChanged`
  embeds `src/cdb/site.go`;
* `Pugo.CommitSites` embeds the commit pipeline of the cdb store
  (`CommitSites` in the cdb package), with the git worktree, staging,
  commit and push steps abstracted into an environment of effect outcomes;
* `Pugo.ensureSitesCacheLoaded` / `Pugo.initSitesCache` embed the
  `sync.Once`-guarded sites cache;
* `Pugo.FinishGrant` embeds the optimistic conditional update of
  `src/newerpol/newerpol.go`;
* `Pugo.doSync` embeds the sync orchestrator of
  `src/cmd/pugo/cmd/sync.go`, sequentialising the goroutine fan-out
  (add-verb sites in list order, then revoke-verb sites).

Machine strings are Lean `String`s ordered by the standard lexicographic
order (as Go's `sort.Strings` orders them); file contents, the git
repository and the SQL database are abstracted into explicit environments.
-/

namespace Pugo

/-- Kernel-reducible decidability for the string order (the builtin
instance goes through `String.ltb`, whose well-founded recursion the
kernel cannot unfold; the list order reduces). -/
instance (priority := 2000) strDecLT : DecidableRel (fun a b : String => a < b) :=
  fun a b => decidable_of_iff (a.toList < b.toList) String.lt_iff_toList_lt.symm

/-- Kernel-reducible decidability for `≤` on strings. -/
instance (priority := 2000) strDecLE : DecidableRel (fun a b : String => a ≤ b) :=
  fun a b => decidable_of_iff (a.toList ≤ b.toList) String.le_iff_toList_le.symm

/-- The mutable per-record state of `cdb.Site` (`src/cdb/site.go`).
Only the fields the verified operations touch are carried: the access
list `Admins`, the numeric `Id`, the derived `name`, and the unexported
`changed` dirty flag.  The mutex is dropped: operations are modelled as
pure state transformers, i.e. as executed under the lock. -/
structure Site where
  Id : Nat
  Admins : List String
  name : String
  changed : Bool
  deriving Repr, DecidableEq

/-- `cdb.NewSite`: fresh site with the dirty flag clear. -/
def NewSite : Site :=
  { Id := 0, Admins := [], name := "", changed := false }

/-- `Site.Changed`. -/
def Site.Changed (s : Site) : Bool := s.changed

/-- `Site.MarkAsChanged`. -/
def Site.MarkAsChanged (s : Site) : Site := { s with changed := true }

/-- `Site.FileNameRepo`: `path.Join("sites", name + ".yaml")`. -/
def Site.FileNameRepo (s : Site) : String := "sites/" ++ s.name ++ ".yaml"

/-- Go's `sort.Strings`: sort ascending in the lexicographic string order.
Go's sort is unstable, but on a total order of strings the result is the
unique sorted permutation, so insertion sort is extensionally faithful. -/
def sortStrings (l : List String) : List String :=
  l.insertionSort (· ≤ ·)

/-- Go's `sort.SearchStrings` as invoked by the site operations: the code
always sorts first, and on a sorted slice the binary search returns the
lower bound — the number of leading elements strictly below the probe. -/
def searchStrings (l : List String) (x : String) : Nat :=
  (l.takeWhile (fun y => y < x)).length

/-- `Site.AddAdmin` (`src/cdb/site.go` lines 87–120): reject the empty
username, sort the admins in place, binary-search for the username, return
if present, otherwise insert at the found position and set the dirty
flag.  The Go append/copy shuffle for the two insert cases is the
take/cons/drop splice at `pos`. -/
def Site.AddAdmin (s : Site) (username : String) : Site :=
  if username = "" then s
  else
    let sorted := sortStrings s.Admins
    let pos := searchStrings sorted username
    if sorted.get? pos = some username then
      { s with Admins := sorted }
    else if pos = sorted.length then
      { s with Admins := sorted ++ [username], changed := true }
    else
      { s with Admins := sorted.take pos ++ username :: sorted.drop pos, changed := true }

/-- `Site.RemoveAdmin` (`src/cdb/site.go` lines 122–151): reject the empty
username, sort in place, binary-search, and if found excise the entry
(Go's copy-down/truncate is the take/drop splice) and set the dirty
flag. -/
def Site.RemoveAdmin (s : Site) (username : String) : Site :=
  if username = "" then s
  else
    let sorted := sortStrings s.Admins
    let pos := searchStrings sorted username
    if sorted.get? pos = some username then
      { s with Admins := sorted.take pos ++ sorted.drop (pos + 1), changed := true }
    else
      { s with Admins := sorted }

/-- `Site.Save` (`src/cdb/site.go` lines 153–166).  Marshalling and the
file write are abstracted to success flags supplied by the environment;
on success the dirty flag is cleared, on either failure the site is
returned untouched together with the error. -/
def Site.Save (s : Site) (marshalOk writeOk : Bool) : Except String Unit × Site :=
  if !marshalOk then (Except.error ("cdb: Unable to marshall " ++ s.name), s)
  else if !writeOk then (Except.error ("cdb: Unable to write " ++ s.name ++ ".yaml"), s)
  else (Except.ok (), { s with changed := false })

/-- `cdb.LoadSite`: starts from `NewSite`, then unmarshals the YAML data
into the exported fields.  The unexported `changed` flag is not populated
by unmarshalling, so a freshly loaded site always has it clear.  The YAML
payload is abstracted to the exported field values (or a failure). -/
def LoadSite (payload : Option (Nat × List String)) (fileName : String) :
    Except String Site :=
  match payload with
  | none => Except.error ("cdb: Unmarshalling " ++ fileName)
  | some (id, admins) =>
      Except.ok { NewSite with Id := id, Admins := admins, name := fileName }

end Pugo

namespace Pugo

/-! ### Basic facts about `searchStrings` and the splice operations -/

theorem searchStrings_nil (x : String) : searchStrings [] x = 0 := rfl

theorem searchStrings_cons (y : String) (l : List String) (x : String) :
    searchStrings (y :: l) x = if y < x then searchStrings l x + 1 else 0 := by
  simp only [searchStrings, List.takeWhile]
  by_cases h : y < x <;> simp [h, Nat.add_comm]

theorem searchStrings_le_length (l : List String) (x : String) :
    searchStrings l x ≤ l.length := by
  simpa [searchStrings] using (List.takeWhile_prefix (l := l) _).length_le

/-- On a sorted list, the search position holds `x` exactly when `x` is a
member. -/
theorem get?_searchStrings (l : List String) (x : String)
    (hs : l.Sorted (· ≤ ·)) :
    l.get? (searchStrings l x) = some x ↔ x ∈ l := by
  induction l with
  | nil => simp [searchStrings]
  | cons y ys ih =>
      rw [searchStrings_cons]
      rcases List.sorted_cons.mp hs with ⟨hy, hys⟩
      by_cases h : y < x
      · have hne : x ≠ y := fun he => absurd (he ▸ h) (lt_irrefl _)
        simp only [if_pos h, List.get?_cons_succ, List.mem_cons]
        rw [ih hys]
        constructor
        · exact fun hm => Or.inr hm
        · rintro (he | hm)
          · exact absurd he hne
          · exact hm
      · have hxy : x ≤ y := le_of_not_lt h
        simp only [if_neg h, List.get?_cons_zero, Option.some.injEq, List.mem_cons]
        constructor
        · exact fun he => Or.inl he.symm
        · rintro (he | hm)
          · exact he.symm
          · exact le_antisymm (hy x hm) hxy

/-- The insertion splice at the search position is Mathlib's
`orderedInsert` (unconditionally, because the search position is the
length of the maximal `< x` prefix). -/
theorem splice_eq_orderedInsert (l : List String) (x : String) :
    l.take (searchStrings l x) ++ x :: l.drop (searchStrings l x) =
      l.orderedInsert (· ≤ ·) x := by
  induction l with
  | nil => rfl
  | cons y ys ih =>
      rw [searchStrings_cons]
      by_cases h : y < x
      · have h' : ¬ x ≤ y := not_le_of_lt h
        simp [h, h', List.orderedInsert, ih]
      · have h' : x ≤ y := le_of_not_lt h
        simp [h, h', List.orderedInsert]

/-- The removal splice at a search position that hit `x` is `l.erase x`:
everything before the position is `< x`, hence not `x`. -/
theorem splice_eq_erase (l : List String) (x : String)
    (h : l.get? (searchStrings l x) = some x) :
    l.take (searchStrings l x) ++ l.drop (searchStrings l x + 1) = l.erase x := by
  induction l with
  | nil => simp [searchStrings] at h
  | cons y ys ih =>
      rw [searchStrings_cons] at h ⊢
      by_cases hlt : y < x
      · have hne : y ≠ x := ne_of_lt hlt
        rw [if_pos hlt] at h
        have h' := h
        rw [List.get?_cons_succ] at h'
        simp only [if_pos hlt, List.take_succ_cons, List.drop_succ_cons, List.cons_append,
          List.erase_cons, if_neg (by simpa using hne)]
        have hb : (y == x) = false := by simpa using hne
        simp [hb, ih h']
      · rw [if_neg hlt, List.get?_cons_zero, Option.some.injEq] at h
        subst h
        simp [if_neg hlt, List.erase_cons]

/-! ### Characterisation of `AddAdmin` / `RemoveAdmin` -/

theorem sortStrings_sorted (l : List String) : (sortStrings l).Sorted (· ≤ ·) :=
  List.sorted_insertionSort _ l

theorem sortStrings_perm (l : List String) : (sortStrings l).Perm l :=
  List.perm_insertionSort _ l

theorem sortStrings_eq_self (l : List String) (h : l.Sorted (· ≤ ·)) :
    sortStrings l = l :=
  h.insertionSort_eq

theorem AddAdmin_empty (s : Site) : s.AddAdmin "" = s := by
  simp [Site.AddAdmin]

theorem RemoveAdmin_empty (s : Site) : s.RemoveAdmin "" = s := by
  simp [Site.RemoveAdmin]

theorem AddAdmin_of_mem (s : Site) (x : String) (hx : x ≠ "") (hm : x ∈ s.Admins) :
    s.AddAdmin x = { s with Admins := sortStrings s.Admins } := by
  have hmem : x ∈ sortStrings s.Admins := (sortStrings_perm s.Admins).mem_iff.mpr hm
  have hget : (sortStrings s.Admins).get? (searchStrings (sortStrings s.Admins) x) = some x :=
    (get?_searchStrings _ x (sortStrings_sorted s.Admins)).mpr hmem
  have hget' : (sortStrings s.Admins)[searchStrings (sortStrings s.Admins) x]? = some x := by
    simpa using hget
  simp [Site.AddAdmin, hx, hget, hget']

theorem AddAdmin_of_not_mem (s : Site) (x : String) (hx : x ≠ "") (hm : x ∉ s.Admins) :
    s.AddAdmin x =
      { s with Admins := (sortStrings s.Admins).orderedInsert (· ≤ ·) x, changed := true } := by
  have hmem : x ∉ sortStrings s.Admins := fun h => hm ((sortStrings_perm s.Admins).mem_iff.mp h)
  have hget : (sortStrings s.Admins).get? (searchStrings (sortStrings s.Admins) x) ≠ some x :=
    fun h => hmem ((get?_searchStrings _ x (sortStrings_sorted s.Admins)).mp h)
  rw [Site.AddAdmin, if_neg hx]
  simp only [if_neg hget]
  by_cases hlen : searchStrings (sortStrings s.Admins) x = (sortStrings s.Admins).length
  · rw [if_pos hlen]
    have : sortStrings s.Admins ++ [x] =
        (sortStrings s.Admins).take (searchStrings (sortStrings s.Admins) x) ++
          x :: (sortStrings s.Admins).drop (searchStrings (sortStrings s.Admins) x) := by
      rw [hlen, List.take_length, List.drop_length]
    rw [this, splice_eq_orderedInsert]
  · rw [if_neg hlen, splice_eq_orderedInsert]

theorem RemoveAdmin_of_mem (s : Site) (x : String) (hx : x ≠ "") (hm : x ∈ s.Admins) :
    s.RemoveAdmin x =
      { s with Admins := (sortStrings s.Admins).erase x, changed := true } := by
  have hmem : x ∈ sortStrings s.Admins := (sortStrings_perm s.Admins).mem_iff.mpr hm
  have hget : (sortStrings s.Admins).get? (searchStrings (sortStrings s.Admins) x) = some x :=
    (get?_searchStrings _ x (sortStrings_sorted s.Admins)).mpr hmem
  rw [Site.RemoveAdmin, if_neg hx]
  simp only [if_pos hget]
  rw [splice_eq_erase _ _ hget]

theorem RemoveAdmin_of_not_mem (s : Site) (x : String) (hx : x ≠ "") (hm : x ∉ s.Admins) :
    s.RemoveAdmin x = { s with Admins := sortStrings s.Admins } := by
  have hmem : x ∉ sortStrings s.Admins := fun h => hm ((sortStrings_perm s.Admins).mem_iff.mp h)
  have hget : (sortStrings s.Admins).get? (searchStrings (sortStrings s.Admins) x) ≠ some x :=
    fun h => hmem ((get?_searchStrings _ x (sortStrings_sorted s.Admins)).mp h)
  have hget' : ¬ (sortStrings s.Admins)[searchStrings (sortStrings s.Admins) x]? = some x := by
    simpa using hget
  simp [Site.RemoveAdmin, hx, hget, hget']

/-- The invariant stated by the spec for the `Admins` field: sorted,
duplicate-free, and free of empty entries. -/
def AdminsInvariant (l : List String) : Prop :=
  l.Sorted (· ≤ ·) ∧ l.Nodup ∧ "" ∉ l

instance (l : List String) : Decidable (AdminsInvariant l) := by
  unfold AdminsInvariant; infer_instance

theorem AdminsInvariant_sortStrings (l : List String) (h : AdminsInvariant l) :
    sortStrings l = l :=
  sortStrings_eq_self l h.1

theorem AdminsInvariant_addAdmin (s : Site) (x : String)
    (h : AdminsInvariant s.Admins) : AdminsInvariant (s.AddAdmin x).Admins := by
  by_cases hx : x = ""
  · subst hx; rw [AddAdmin_empty]; exact h
  by_cases hm : x ∈ s.Admins
  · rw [AddAdmin_of_mem s x hx hm]
    simpa [AdminsInvariant_sortStrings _ h] using h
  · rw [AddAdmin_of_not_mem s x hx hm]
    rw [AdminsInvariant_sortStrings _ h] at *
    refine ⟨h.1.orderedInsert x _, ?_, ?_⟩
    · exact ((List.perm_orderedInsert _ x s.Admins).nodup_iff).mpr (List.nodup_cons.mpr ⟨hm, h.2.1⟩)
    · intro hc
      rcases (List.mem_orderedInsert _).mp hc with he | he
      · exact hx he.symm
      · exact h.2.2 he

theorem AdminsInvariant_removeAdmin (s : Site) (x : String)
    (h : AdminsInvariant s.Admins) : AdminsInvariant (s.RemoveAdmin x).Admins := by
  by_cases hx : x = ""
  · subst hx; rw [RemoveAdmin_empty]; exact h
  by_cases hm : x ∈ s.Admins
  · rw [RemoveAdmin_of_mem s x hx hm]
    rw [AdminsInvariant_sortStrings _ h]
    have hsub : List.Sublist (s.Admins.erase x) s.Admins := List.erase_sublist x s.Admins
    exact ⟨h.1.sublist hsub, h.2.1.sublist hsub, fun hc => h.2.2 (hsub.mem hc)⟩
  · rw [RemoveAdmin_of_not_mem s x hx hm]
    simpa [AdminsInvariant_sortStrings _ h] using h

/-- One step of the admin-mutation alphabet used for sequence claims. -/
inductive AdminOp where
  | add (name : String)
  | remove (name : String)
  deriving Repr, DecidableEq

/-- Apply one `AddAdmin`/`RemoveAdmin` call. -/
def applyOp (s : Site) : AdminOp → Site
  | AdminOp.add n => s.AddAdmin n
  | AdminOp.remove n => s.RemoveAdmin n

/-- Apply a whole call sequence left to right. -/
def applyOps (s : Site) (ops : List AdminOp) : Site :=
  ops.foldl applyOp s

theorem AdminsInvariant_applyOps (s : Site) (ops : List AdminOp)
    (h : AdminsInvariant s.Admins) : AdminsInvariant (applyOps s ops).Admins := by
  induction ops generalizing s with
  | nil => exact h
  | cons op ops ih =>
      cases op with
      | add n => exact ih _ (AdminsInvariant_addAdmin s n h)
      | remove n => exact ih _ (AdminsInvariant_removeAdmin s n h)

/-! ### The cdb commit pipeline (`CommitSites` and the sites cache) -/

/-- `cdb.CommitSitesOptions`.  `Ids` is Go's `map[int]bool`; since map
iteration order is unspecified, the model takes an explicit list of
`(id, inSet)` pairs. -/
structure CommitSitesOptions where
  Ids : Option (List (Nat × Bool))
  Message : String
  Cmd : String
  DryRun : Bool
  ForceUpdateTree : Bool
  NoPush : Bool

/-- Environment of the commit pipeline: the loaded sites cache and the
outcomes of the abstracted I/O steps (git worktree acquisition, per-site
save, staging, commit creation, push), plus the two viper configuration
strings consulted for the commit message. -/
structure CdbEnv where
  cache : List Site
  cacheLoadError : Option String
  worktreeOk : Bool
  saveOk : Nat → Bool
  saveDiffers : Nat → Bool
  stageOk : String → Bool
  commitOk : Bool
  pushOk : Bool
  newerpolName : String
  newerpolDatabase : String

/-- Effect trace of one `CommitSites` run. -/
structure CommitEffects where
  savedCalled : List Nat
  savedOk : List Nat
  staged : List String
  committed : Option String
  pushed : Bool
  deriving Repr, DecidableEq

def CommitEffects.none_ : CommitEffects :=
  { savedCalled := [], savedOk := [], staged := [], committed := none, pushed := false }

/-- `sitesCache.byId` lookup. -/
def byId (cache : List Site) (id : Nat) : Option Site :=
  cache.find? (fun s => s.Id == id)

/-- The id set `CommitSites` iterates: the caller-supplied map, or one
entry per cached site when the caller passed none. -/
def siteIdsOf (opts : CommitSitesOptions) (env : CdbEnv) : List (Nat × Bool) :=
  match opts.Ids with
  | some ids => ids
  | none => env.cache.map (fun s => (s.Id, true))

/-- The sites that pass the three `continue` filters of the save loop:
listed with `inSet`, found in the cache, and dirty.  `sitesChanged`
counts exactly these. -/
def eligibleSites (opts : CommitSitesOptions) (env : CdbEnv) : List Site :=
  (siteIdsOf opts env).filterMap (fun p =>
    if p.2 then
      match byId env.cache p.1 with
      | some site => if site.Changed then some site else none
      | none => none
    else none)

/-- Staging loop: `wt.Add` each file, aborting on the first failure
(files after it are left unstaged). -/
def stageAll (stageOk : String → Bool) : List String → List String × Option String
  | [] => ([], none)
  | f :: fs =>
      if stageOk f then
        let r := stageAll stageOk fs
        (f :: r.1, r.2)
      else ([], some f)

/-- The commit message built by `CommitSites` (lines 162–176 of the cdb
store file): defaulted summary, `pugo`-prefixed command, grant-source name
falling back to the database name. -/
def commitMessageOf (opts : CommitSitesOptions) (env : CdbEnv) (sitesChanged : Nat) : String :=
  let message := if opts.Message = "" then "Unspecified changes" else opts.Message
  let cmd := if opts.Cmd = "" then "pugo" else "pugo " ++ opts.Cmd
  let src := if env.newerpolName = "" then env.newerpolDatabase else env.newerpolName
  "sites: " ++ message ++ ". Sites changed: " ++ toString sitesChanged ++
    " (cmd=" ++ cmd ++ ", src=" ++ src ++ ")"

/-- The commit-message format the spec states, word for word:
`"<summary>. Sites changed: <count> (cmd=<origin>, src=<ledger-name>)"`.
Used only to compare the spec's claim against `commitMessageOf`. -/
def specCommitMessage (summary : String) (count : Nat) (origin ledgerName : String) : String :=
  summary ++ ". Sites changed: " ++ toString count ++
    " (cmd=" ++ origin ++ ", src=" ++ ledgerName ++ ")"

/-- `cdb.CommitSites`: cache load, worktree acquisition, concurrent save
of the eligible dirty sites (skipped under dry-run unless
force-update-tree), staging (skipped under dry-run), the clean-tree
commit skip, commit creation and push (both skipped under dry-run, push
also under no-push).  The goroutine fan-out is sequentialised in list
order; as in the source, every save is attempted before the first save
error aborts the pipeline.  Returns the result together with the effect
trace accumulated up to the abort point. -/
def CommitSites (opts : CommitSitesOptions) (env : CdbEnv) :
    Except String Unit × CommitEffects :=
  match env.cacheLoadError with
  | some e => (Except.error e, CommitEffects.none_)
  | none =>
    if !env.worktreeOk then (Except.error "cdb: Working tree not clean", CommitEffects.none_)
    else
      let elig := eligibleSites opts env
      let sitesChanged := elig.length
      let doSave := !opts.DryRun || opts.ForceUpdateTree
      let savedCalled := if doSave then elig.map Site.Id else []
      let savedOkSites := if doSave then elig.filter (fun s => env.saveOk s.Id) else []
      let savedOk := savedOkSites.map Site.Id
      let saveFailed := doSave && elig.any (fun s => !env.saveOk s.Id)
      if saveFailed then
        (Except.error "cdb: save failed",
         { savedCalled, savedOk, staged := [], committed := none, pushed := false })
      else
        let filesToStage := savedOkSites.map Site.FileNameRepo
        let stageRun := if opts.DryRun then ([], none) else stageAll env.stageOk filesToStage
        let staged := stageRun.1
        match stageRun.2 with
        | some f =>
            (Except.error ("cdb: Staging " ++ f),
             { savedCalled, savedOk, staged, committed := none, pushed := false })
        | none =>
          let treeClean := savedOk.all (fun id => !env.saveDiffers id)
          if treeClean then
            (Except.ok (),
             { savedCalled, savedOk, staged, committed := none, pushed := false })
          else
            let msg := commitMessageOf opts env sitesChanged
            if opts.DryRun then
              (Except.ok (),
               { savedCalled, savedOk, staged, committed := none, pushed := false })
            else if !env.commitOk then
              (Except.error "cdb: Creating commit",
               { savedCalled, savedOk, staged, committed := none, pushed := false })
            else if opts.NoPush then
              (Except.ok (),
               { savedCalled, savedOk, staged, committed := some msg, pushed := false })
            else if env.pushOk then
              (Except.ok (),
               { savedCalled, savedOk, staged, committed := some msg, pushed := true })
            else
              (Except.error "cdb: Pushing to origin",
               { savedCalled, savedOk, staged, committed := some msg, pushed := false })

/-! ### The `sync.Once`-guarded sites cache -/

/-- One directory entry as `initSitesCache` sees it: a load error, a
skipped non-YAML file, or a loaded site. -/
inductive DirEntry where
  | failed (e : String)
  | skipped
  | loaded (s : Site)
  deriving Repr, DecidableEq

/-- The filesystem as `initSitesCache` observes it: whether `cdb.path`
is configured, and the outcome of reading the sites directory. -/
structure CdbWorld where
  cdbPathSet : Bool
  dirEntries : Except String (List DirEntry)

/-- The slice-accumulating receive loop of `initSitesCache`: the first
load error aborts, skipped entries contribute nothing. -/
def collectSites : List DirEntry → Except String (List Site)
  | [] => Except.ok []
  | DirEntry.failed e :: _ => Except.error e
  | DirEntry.skipped :: rest => collectSites rest
  | DirEntry.loaded s :: rest =>
      match collectSites rest with
      | Except.error e => Except.error e
      | Except.ok sites => Except.ok (s :: sites)

/-- `cdb.initSitesCache`: require `cdb.path`, read the directory, then
collect the concurrently loaded sites (first error wins). -/
def initSitesCache (w : CdbWorld) : Except String (List Site) :=
  if !w.cdbPathSet then Except.error "cdb: cdb.path missing in config"
  else
    match w.dirEntries with
    | Except.error e => Except.error ("cdb: " ++ e)
    | Except.ok entries => collectSites entries

/-- The `sync.Once` cell of `sitesCacheStruct`: `none` before the first
call, afterwards the cached result (sites or the cached error). -/
structure SitesCacheState where
  result : Option (Except String (List Site))
  deriving Repr

/-- `cdb.ensureSitesCacheLoaded`: on the first call run `initSitesCache`
and latch its outcome; on every later call return the latched outcome
without touching the world. -/
def ensureSitesCacheLoaded (st : SitesCacheState) (w : CdbWorld) :
    Except String (List Site) × SitesCacheState :=
  match st.result with
  | some r => (r, st)
  | none =>
      let r := initSitesCache w
      (r, { result := some r })

/-- `cdb.GetSiteById` (cache-backed lookup; `none` when absent). -/
def GetSiteById (id : Nat) (st : SitesCacheState) (w : CdbWorld) :
    Except String (Option Site) × SitesCacheState :=
  let r := ensureSitesCacheLoaded st w
  match r.1 with
  | Except.error e => (Except.error e, r.2)
  | Except.ok sites => (Except.ok (byId sites id), r.2)

/-- `cdb.GetSiteByName`. -/
def GetSiteByName (name : String) (st : SitesCacheState) (w : CdbWorld) :
    Except String (Option Site) × SitesCacheState :=
  let r := ensureSitesCacheLoaded st w
  match r.1 with
  | Except.error e => (Except.error e, r.2)
  | Except.ok sites => (Except.ok (sites.find? (fun s => s.name == name)), r.2)

/-- `cdb.GetAllSites`. -/
def GetAllSites (st : SitesCacheState) (w : CdbWorld) :
    Except String (List Site) × SitesCacheState :=
  let r := ensureSitesCacheLoaded st w
  (r.1, r.2)

/-! ### The newerpol ledger client (`src/newerpol/newerpol.go`) -/

/-- Statuses from `dbo.WebserverAccessStatii`. -/
def AccessGrantPending : Nat := 1

def AccessGranted : Nat := 2

def AccessRevokePending : Nat := 3

def AccessRevoked : Nat := 4

/-- `newerpol.AccessRecord`. -/
structure AccessRecord where
  AccessId : Nat
  WebsiteId : Nat
  RequestStatus : Nat
  FirstName : String
  LookupName : String
  Login : String
  Email : String
  CSP : String
  deriving Repr, DecidableEq

def AccessRecord.IsPending (a : AccessRecord) : Prop :=
  a.RequestStatus = AccessGrantPending ∨ a.RequestStatus = AccessRevokePending

/-- The `dbo.WebserverAccess` table restricted to what the finalize
statements touch: the current `RequestStatus` per row id (`rows`), plus
an abstract flag for a failing `stmt.Exec`. -/
structure NewerpolDb where
  rows : Nat → Option Nat
  execFails : Bool

/-- `AccessRecord.FinishGrant` (`src/newerpol/newerpol.go` lines
169–204): refuse terminal states, then run the conditional update
`SET RequestStatus = <target> WHERE ID = ? AND RequestStatus = ?`; the
affected-row count (0 or 1, since `ID` is the key) is the sole success
signal. -/
def FinishGrant (a : AccessRecord) (db : NewerpolDb) :
    Except String (Bool × NewerpolDb) :=
  if a.RequestStatus = AccessGranted ∨ a.RequestStatus = AccessRevoked then
    Except.error "newerpol: Cannot finish grant, already in finished state"
  else if db.execFails then
    Except.error "newerpol: Finishing grant"
  else
    let target := if a.RequestStatus = AccessGrantPending then AccessGranted else AccessRevoked
    if db.rows a.AccessId = some a.RequestStatus then
      Except.ok (true,
        { db with rows := fun id => if id = a.AccessId then some target else db.rows id })
    else
      Except.ok (false, db)

/-! ### The sync orchestrator (`src/cmd/pugo/cmd/sync.go`) -/

/-- The per-command flags of `sync` (`syncOptions`). -/
structure SyncOptions where
  dryRun : Bool
  forceUpdateTree : Bool
  noPush : Bool
  noEmail : Bool
  recipientOverride : String

/-- `email.EmailOptions` (`src/email/email.go`), as filled in by
`doSync`. -/
structure EmailOptions where
  CSP : String
  Email : String
  EmailName : String
  FirstName : String
  Folder : String
  Subject : String
  EmailType : String
  deriving Repr, DecidableEq

/-- The two grant verbs of the sync loop. -/
inductive Verb where
  | add
  | revoke
  deriving Repr, DecidableEq

/-- One record's worker: apply each grant in order (AddAdmin for the add
verb, RemoveAdmin for revoke), reporting the site id on every grant after
which the site's dirty flag is set, and forwarding every processed grant.
Returns the mutated site, the reported ids and the processed grants. -/
def processSiteGrants (verb : Verb) (site : Site) (records : List AccessRecord) :
    Site × List Nat × List AccessRecord :=
  match records with
  | [] => (site, [], [])
  | r :: rest =>
      let site' := match verb with
        | Verb.add => site.AddAdmin r.Login
        | Verb.revoke => site.RemoveAdmin r.Login
      let changedHere := if site'.Changed then [site'.Id] else []
      let rec' := processSiteGrants verb site' rest
      (rec'.1, changedHere ++ rec'.2.1, r :: rec'.2.2)

/-- Replace a site in the cache (pointer mutation made explicit). -/
def updateSite (cache : List Site) (site : Site) : List Site :=
  cache.map (fun s => if s.Id == site.Id then site else s)

/-- The fan-out over one verb's grant map: look up each target site,
skip (with a warning) grant lists whose site is absent, and run the
per-site worker.  Goroutines are sequentialised in list order. -/
def applyVerb (verb : Verb) (grantMap : List (Nat × List AccessRecord))
    (cache : List Site) : List Site × List Nat × List AccessRecord :=
  match grantMap with
  | [] => (cache, [], [])
  | (id, records) :: rest =>
      match byId cache id with
      | none => applyVerb verb rest cache
      | some site =>
          let w := processSiteGrants verb site records
          let next := applyVerb verb rest (updateSite cache w.1)
          (next.1, w.2.1 ++ next.2.1, w.2.2 ++ next.2.2)

/-- Outcomes of the email subsystem: whether `email.StartWorker`
succeeds, and whether an individual `email.SendEmail` succeeds. -/
structure EmailEnv where
  startWorkerOk : Bool
  sendOk : EmailOptions → Bool

/-- The result of one sync run: the commit outcome, the `FinishGrant`
calls made (in order, with the updated flag each returned), the emails
handed to `email.SendEmail`, and the message of a `log.Fatalf` halt in
the finalize loop, if any. -/
structure SyncResult where
  commitResult : Except String Unit
  finishes : List (AccessRecord × Bool)
  emails : List EmailOptions
  fatal : Option String

/-- The finalize-and-notify loop of `doSync` (lines 180–243): skip
`FinishGrant` entirely under dry-run; a `FinishGrant` error is
`log.Fatalf` (the loop halts, nothing later runs); an email is built and
sent only when the grant reported `updated` and emails are enabled, the
site is still present, and the recipient address is nonempty, with the
recipient override applied last.  Send failures are logged and
skipped. -/
def finalizeLoop (opts : SyncOptions) (sendEmails : Bool) (cache : List Site) :
    List AccessRecord → NewerpolDb →
      List (AccessRecord × Bool) × List EmailOptions × Option String
  | [], _ => ([], [], none)
  | r :: rest, db =>
      if opts.dryRun then finalizeLoop opts sendEmails cache rest db
      else
        match FinishGrant r db with
        | Except.error e => ([], [], some e)
        | Except.ok (updated, db') =>
            let emailsHere :=
              if updated && sendEmails then
                match byId cache r.WebsiteId with
                | none => []
                | some site =>
                    let eo : EmailOptions :=
                      { CSP := r.CSP, Email := r.Email, EmailName := r.LookupName,
                        FirstName := r.FirstName, Folder := site.name,
                        Subject :=
                          if r.RequestStatus = AccessGrantPending then "Website Access Granted"
                          else if r.RequestStatus = AccessRevokePending then "Website Access Removed"
                          else "",
                        EmailType :=
                          if r.RequestStatus = AccessGrantPending then "granted"
                          else if r.RequestStatus = AccessRevokePending then "revoked"
                          else "" }
                    if eo.Email = "" then []
                    else if opts.recipientOverride ≠ "" then
                      [{ eo with Email := opts.recipientOverride }]
                    else [eo]
              else []
            let next := finalizeLoop opts sendEmails cache rest db'
            ((r, updated) :: next.1, emailsHere ++ next.2.1, next.2.2)

/-- `doSync`: apply the add grants then the revoke grants across the
cached sites, aggregate the changed-site id set and the processed grants,
call `CommitSites` exactly once (a failure is `log.Fatalf`: no grant is
finalized, no email sent), then finalize and notify sequentially. -/
def doSync (opts : SyncOptions) (grantsAdd grantsRevoke : List (Nat × List AccessRecord))
    (env : CdbEnv) (db : NewerpolDb) (emailEnv : EmailEnv) : SyncResult :=
  match env.cacheLoadError with
  | some e => { commitResult := Except.error e, finishes := [], emails := [], fatal := some e }
  | none =>
    let afterAdd := applyVerb Verb.add grantsAdd env.cache
    let afterRevoke := applyVerb Verb.revoke grantsRevoke afterAdd.1
    let changedIds := (afterAdd.2.1 ++ afterRevoke.2.1).dedup
    let grantsProcessed := afterAdd.2.2 ++ afterRevoke.2.2
    let commitOpts : CommitSitesOptions :=
      { Ids := some (changedIds.map (fun id => (id, true))),
        Message := "Update admins", Cmd := "sync",
        DryRun := opts.dryRun, ForceUpdateTree := opts.forceUpdateTree,
        NoPush := opts.noPush }
    let env' := { env with cache := afterRevoke.1 }
    match (CommitSites commitOpts env').1 with
    | Except.error e =>
        { commitResult := Except.error e, finishes := [], emails := [], fatal := some e }
    | Except.ok _ =>
        let sendEmails := !opts.dryRun && !opts.noEmail && emailEnv.startWorkerOk
        let fin := finalizeLoop opts sendEmails afterRevoke.1 grantsProcessed db
        { commitResult := Except.ok (), finishes := fin.1, emails := fin.2.1,
          fatal := fin.2.2 }

end Pugo

namespace Pugo

/-! ## Claim theorems -/

/-- C1: for every sequence of `AddAdmin`/`RemoveAdmin` calls applied to a
`Site` whose `Admins` list is initially sorted, duplicate-free, and free
of empty strings, the resulting `Admins` list is sorted, duplicate-free,
and never contains an empty entry; `AddAdmin` rejects the empty string
and inserts in sorted position, `RemoveAdmin` removes the single matching
entry. -/
theorem admins_invariant_sequences :
    (∀ (s : Site) (ops : List AdminOp), AdminsInvariant s.Admins →
        AdminsInvariant (applyOps s ops).Admins)
    ∧ (∀ s : Site, s.AddAdmin "" = s)
    ∧ (∀ (s : Site) (x : String), x ≠ "" → AdminsInvariant s.Admins → x ∉ s.Admins →
        (s.AddAdmin x).Admins = s.Admins.orderedInsert (· ≤ ·) x)
    ∧ (∀ (s : Site) (x : String), x ≠ "" → AdminsInvariant s.Admins →
        (s.RemoveAdmin x).Admins = s.Admins.erase x) := by
  refine ⟨AdminsInvariant_applyOps, AddAdmin_empty, ?_, ?_⟩
  · intro s x hx h hm
    rw [AddAdmin_of_not_mem s x hx hm, AdminsInvariant_sortStrings _ h]
  · intro s x hx h
    by_cases hm : x ∈ s.Admins
    · rw [RemoveAdmin_of_mem s x hx hm, AdminsInvariant_sortStrings _ h]
    · rw [RemoveAdmin_of_not_mem s x hx hm, AdminsInvariant_sortStrings _ h]
      exact (List.erase_of_not_mem hm).symm

/-- Witness for C1 at a concrete site and call sequence. -/
theorem admins_invariant_sequences_witness :
    AdminsInvariant (applyOps (Site.mk 7 ["alice"] "s" false)
      [AdminOp.add "bob", AdminOp.add "alice", AdminOp.remove "bob"]).Admins :=
  admins_invariant_sequences.1 _ _ (by decide)

/-- C8 counterexample: on a site whose `Admins` list is unsorted, adding
an already-present name is not a no-op — the list gets sorted in place
(the dirty flag does stay unchanged). -/
theorem addAdmin_present_not_noop :
    "a" ∈ (Site.mk 1 ["b", "a"] "x" false).Admins ∧
    (Site.mk 1 ["b", "a"] "x" false).AddAdmin "a" ≠ Site.mk 1 ["b", "a"] "x" false ∧
    ((Site.mk 1 ["b", "a"] "x" false).AddAdmin "a").changed = false := by decide

/-- C8 amended: adding a present name or removing an absent name leaves
the dirty flag unchanged and the `Admins` list unchanged as a multiset
(it is merely re-sorted in place); when `Admins` is already sorted it is
an exact no-op. -/
theorem addRemove_noop_up_to_sorting :
    (∀ (s : Site) (x : String), x ∈ s.Admins →
        (s.AddAdmin x).changed = s.changed ∧ (s.AddAdmin x).Admins.Perm s.Admins ∧
        (s.Admins.Sorted (· ≤ ·) → s.AddAdmin x = s))
    ∧ (∀ (s : Site) (x : String), x ∉ s.Admins →
        (s.RemoveAdmin x).changed = s.changed ∧ (s.RemoveAdmin x).Admins.Perm s.Admins ∧
        (s.Admins.Sorted (· ≤ ·) → s.RemoveAdmin x = s)) := by
  constructor
  · intro s x hm
    by_cases hx : x = ""
    · subst hx
      rw [AddAdmin_empty]
      exact ⟨rfl, List.Perm.refl _, fun _ => rfl⟩
    · rw [AddAdmin_of_mem s x hx hm]
      refine ⟨rfl, sortStrings_perm s.Admins, fun hs => ?_⟩
      rw [sortStrings_eq_self _ hs]
  · intro s x hm
    by_cases hx : x = ""
    · subst hx
      rw [RemoveAdmin_empty]
      exact ⟨rfl, List.Perm.refl _, fun _ => rfl⟩
    · rw [RemoveAdmin_of_not_mem s x hx hm]
      refine ⟨rfl, sortStrings_perm s.Admins, fun hs => ?_⟩
      rw [sortStrings_eq_self _ hs]

/-- Witness for the amended C8 at concrete sites. -/
theorem addRemove_noop_up_to_sorting_witness :
    ((Site.mk 1 ["alice"] "x" false).AddAdmin "alice").changed = false ∧
    (Site.mk 1 ["alice"] "x" false).RemoveAdmin "bob" = Site.mk 1 ["alice"] "x" false := by
  constructor
  · exact (addRemove_noop_up_to_sorting.1 (Site.mk 1 ["alice"] "x" false) "alice"
      (by decide)).1
  · exact (addRemove_noop_up_to_sorting.2 (Site.mk 1 ["alice"] "x" false) "bob"
      (by decide)).2.2 (by decide)

/-- C9: the dirty flag is false on a freshly constructed or freshly
loaded site, is set by every mutation that actually changes the record
(`AddAdmin` inserting, `RemoveAdmin` removing, `MarkAsChanged`), is never
cleared by those mutations, and is cleared exactly by a successful
`Save` — a failed `Save` leaves the site (and so a true flag)
untouched. -/
theorem changed_flag_lifecycle :
    (NewSite.changed = false)
    ∧ (∀ (payload : Option (Nat × List String)) (fn : String) (s : Site),
        LoadSite payload fn = Except.ok s → s.changed = false)
    ∧ (∀ (s : Site) (x : String), x ≠ "" → x ∉ s.Admins → (s.AddAdmin x).changed = true)
    ∧ (∀ (s : Site) (x : String), x ≠ "" → x ∈ s.Admins → (s.RemoveAdmin x).changed = true)
    ∧ (∀ s : Site, s.MarkAsChanged.changed = true)
    ∧ (∀ (s : Site) (mOk wOk : Bool), (s.Save mOk wOk).1 = Except.ok () →
        (s.Save mOk wOk).2.changed = false)
    ∧ (∀ (s : Site) (mOk wOk : Bool), (s.Save mOk wOk).1 ≠ Except.ok () →
        (s.Save mOk wOk).2 = s)
    ∧ (∀ (s : Site) (x : String), s.changed = true →
        (s.AddAdmin x).changed = true ∧ (s.RemoveAdmin x).changed = true) := by
  refine ⟨rfl, ?_, ?_, ?_, fun s => rfl, ?_, ?_, ?_⟩
  · intro payload fn s h
    match payload with
    | none => simp [LoadSite] at h
    | some (id, admins) =>
        simp only [LoadSite, Except.ok.injEq] at h
        rw [← h]
        rfl
  · intro s x hx hm
    rw [AddAdmin_of_not_mem s x hx hm]
  · intro s x hx hm
    rw [RemoveAdmin_of_mem s x hx hm]
  · intro s mOk wOk h
    cases mOk <;> cases wOk <;> simp_all [Site.Save]
  · intro s mOk wOk h
    cases mOk <;> cases wOk <;> simp_all [Site.Save]
  · intro s x h
    constructor
    · by_cases hx : x = ""
      · subst hx; rw [AddAdmin_empty]; exact h
      · by_cases hm : x ∈ s.Admins
        · rw [AddAdmin_of_mem s x hx hm]; exact h
        · rw [AddAdmin_of_not_mem s x hx hm]
    · by_cases hx : x = ""
      · subst hx; rw [RemoveAdmin_empty]; exact h
      · by_cases hm : x ∈ s.Admins
        · rw [RemoveAdmin_of_mem s x hx hm]
        · rw [RemoveAdmin_of_not_mem s x hx hm]; exact h

/-- Witness for C9 at concrete inputs. -/
theorem changed_flag_lifecycle_witness :
    ((Site.mk 1 ["alice"] "x" false).AddAdmin "bob").changed = true ∧
    ((Site.mk 1 ["alice"] "x" true).Save true true).2.changed = false :=
  ⟨changed_flag_lifecycle.2.2.1 (Site.mk 1 ["alice"] "x" false) "bob"
      (by decide) (by decide),
    changed_flag_lifecycle.2.2.2.2.2.1 (Site.mk 1 ["alice"] "x" true) true true rfl⟩

/-- C10: `AddAdmin`/`RemoveAdmin` sort the `Admins` list in place before
searching, even when they make no logical change: on a site with an
unsorted list, adding a present name (or removing an absent one) reorders
the list while leaving the dirty flag false; any nonempty input leaves
the list sorted (so an unsorted list is always disturbed), and only the
empty-string input leaves the list entirely untouched. -/
theorem sortInPlace_frame :
    (((Site.mk 1 ["b", "a"] "x" false).AddAdmin "a").Admins = ["a", "b"]
      ∧ ((Site.mk 1 ["b", "a"] "x" false).AddAdmin "a").changed = false
      ∧ ((Site.mk 1 ["b", "a"] "x" false).RemoveAdmin "c").Admins = ["a", "b"]
      ∧ ((Site.mk 1 ["b", "a"] "x" false).RemoveAdmin "c").changed = false)
    ∧ (∀ (s : Site) (x : String), x ≠ "" →
        (s.AddAdmin x).Admins.Sorted (· ≤ ·) ∧ (s.RemoveAdmin x).Admins.Sorted (· ≤ ·))
    ∧ (∀ (s : Site) (x : String), x ≠ "" → ¬ s.Admins.Sorted (· ≤ ·) →
        (s.AddAdmin x).Admins ≠ s.Admins ∧ (s.RemoveAdmin x).Admins ≠ s.Admins)
    ∧ (∀ s : Site, s.AddAdmin "" = s ∧ s.RemoveAdmin "" = s) := by
  have hsorted : ∀ (s : Site) (x : String), x ≠ "" →
      (s.AddAdmin x).Admins.Sorted (· ≤ ·) ∧ (s.RemoveAdmin x).Admins.Sorted (· ≤ ·) := by
    intro s x hx
    constructor
    · by_cases hm : x ∈ s.Admins
      · rw [AddAdmin_of_mem s x hx hm]
        exact sortStrings_sorted s.Admins
      · rw [AddAdmin_of_not_mem s x hx hm]
        exact (sortStrings_sorted s.Admins).orderedInsert x _
    · by_cases hm : x ∈ s.Admins
      · rw [RemoveAdmin_of_mem s x hx hm]
        exact (sortStrings_sorted s.Admins).sublist
          (List.erase_sublist x (sortStrings s.Admins))
      · rw [RemoveAdmin_of_not_mem s x hx hm]
        exact sortStrings_sorted s.Admins
  refine ⟨by decide, hsorted, ?_, fun s => ⟨AddAdmin_empty s, RemoveAdmin_empty s⟩⟩
  intro s x hx hns
  constructor
  · intro he
    exact hns (he ▸ (hsorted s x hx).1)
  · intro he
    exact hns (he ▸ (hsorted s x hx).2)

/-- Witness for C10 at a concrete unsorted site. -/
theorem sortInPlace_frame_witness :
    ((Site.mk 1 ["b", "a"] "x" false).AddAdmin "c").Admins ≠ ["b", "a"] :=
  (sortInPlace_frame.2.2.1 (Site.mk 1 ["b", "a"] "x" false) "c"
    (by decide) (by decide)).1

end Pugo

namespace Pugo

/-- Staging every file succeeds when `wt.Add` always succeeds. -/
theorem stageAll_all_ok (stageOk : String → Bool) (fs : List String)
    (h : ∀ f, stageOk f = true) : stageAll stageOk fs = (fs, none) := by
  induction fs with
  | nil => rfl
  | cons f fs ih => simp [stageAll, h f, ih]

/-- C2: with `DryRun` set, `CommitSites` stages nothing, creates no
commit and pushes nothing, regardless of `NoPush` and `ForceUpdateTree`
(and regardless of any environment outcome); and once the pipeline is
reachable (cache loaded, worktree acquired), `Save` is called exactly on
the eligible changed sites when `ForceUpdateTree` is also set, and on no
site otherwise. -/
theorem dryRun_no_commit_push (opts : CommitSitesOptions) (h : opts.DryRun = true) :
    (∀ env : CdbEnv,
        (CommitSites opts env).2.staged = [] ∧
        (CommitSites opts env).2.committed = none ∧
        (CommitSites opts env).2.pushed = false)
    ∧ (∀ env : CdbEnv, env.cacheLoadError = none → env.worktreeOk = true →
        (CommitSites opts env).2.savedCalled =
          (if opts.ForceUpdateTree then (eligibleSites opts env).map Site.Id else [])) := by
  constructor
  · intro env
    unfold CommitSites
    cases hce : env.cacheLoadError with
    | some e => simp [CommitEffects.none_]
    | none =>
      cases hwt : env.worktreeOk with
      | false => simp [CommitEffects.none_]
      | true =>
        simp only [h, Bool.not_true, Bool.false_or, Bool.not_false, Bool.false_eq_true,
          if_false, if_true, ite_true, ite_false]
        split <;> simp
  · intro env hce hwt
    unfold CommitSites
    rw [hce, hwt]
    simp only [h, Bool.not_true, Bool.false_or, Bool.not_false, Bool.false_eq_true,
      if_false, if_true, ite_true, ite_false]
    split <;> simp

/-- Witness for C2 at a concrete dry run with `ForceUpdateTree`. -/
theorem dryRun_no_commit_push_witness :
    (CommitSites
        { Ids := none, Message := "m", Cmd := "sync", DryRun := true,
          ForceUpdateTree := true, NoPush := false }
        { cache := [Site.mk 1 ["alice"] "one" true], cacheLoadError := none,
          worktreeOk := true, saveOk := fun _ => true, saveDiffers := fun _ => true,
          stageOk := fun _ => true, commitOk := true, pushOk := true,
          newerpolName := "eactivities", newerpolDatabase := "db" }).2.committed = none ∧
    (CommitSites
        { Ids := none, Message := "m", Cmd := "sync", DryRun := true,
          ForceUpdateTree := true, NoPush := false }
        { cache := [Site.mk 1 ["alice"] "one" true], cacheLoadError := none,
          worktreeOk := true, saveOk := fun _ => true, saveDiffers := fun _ => true,
          stageOk := fun _ => true, commitOk := true, pushOk := true,
          newerpolName := "eactivities", newerpolDatabase := "db" }).2.savedCalled = [1] := by
  have h := dryRun_no_commit_push
    { Ids := none, Message := "m", Cmd := "sync", DryRun := true,
      ForceUpdateTree := true, NoPush := false } rfl
  refine ⟨(h.1 _).2.1, ?_⟩
  rw [h.2 _ rfl rfl]
  decide

/-- Options used in the C6 counterexample: the `sync` command committing
one changed site. -/
def msgCexOpts : CommitSitesOptions :=
  { Ids := none, Message := "Update admins", Cmd := "sync",
    DryRun := false, ForceUpdateTree := false, NoPush := false }

/-- Environment used in the C6 counterexample: one dirty site, every
I/O step succeeding, grant source named `eactivities`. -/
def msgCexEnv : CdbEnv :=
  { cache := [Site.mk 1 ["alice"] "one" true], cacheLoadError := none,
    worktreeOk := true, saveOk := fun _ => true, saveDiffers := fun _ => true,
    stageOk := fun _ => true, commitOk := true, pushOk := true,
    newerpolName := "eactivities", newerpolDatabase := "db" }

/-- C6 counterexample: on a run committing one changed site, the commit
message carries a `sites: ` prefix and a `pugo `-prefixed command name, so
it differs from the format the claim states
(`"<summary>. Sites changed: <count> (cmd=<origin>, src=<ledger-name>)"`). -/
theorem commitMessage_spec_format_cex :
    (CommitSites msgCexOpts msgCexEnv).2.committed =
      some "sites: Update admins. Sites changed: 1 (cmd=pugo sync, src=eactivities)"
    ∧ "sites: Update admins. Sites changed: 1 (cmd=pugo sync, src=eactivities)" ≠
      specCommitMessage msgCexOpts.Message 1 msgCexOpts.Cmd msgCexEnv.newerpolName := by
  decide

/-- C6 amended: every commit created by `CommitSites` has the message
`"sites: <summary>. Sites changed: <count> (cmd=<origin>, src=<ledger-name>)"`,
where `<summary>` is the caller-supplied message (`"Unspecified changes"`
when empty), `<count>` the number of changed records targeted,
`<origin>` is `pugo` followed by the originating command name when
nonempty, and `<ledger-name>` the configured grant-source name, falling
back to the database name. -/
theorem commitMessage_matches_code (opts : CommitSitesOptions) (env : CdbEnv) (m : String)
    (h : (CommitSites opts env).2.committed = some m) :
    m = commitMessageOf opts env (eligibleSites opts env).length := by
  unfold CommitSites at h
  cases hce : env.cacheLoadError with
  | some e => rw [hce] at h; simp [CommitEffects.none_] at h
  | none =>
    rw [hce] at h
    cases hwt : env.worktreeOk with
    | false => rw [hwt] at h; simp [CommitEffects.none_] at h
    | true =>
      rw [hwt] at h
      simp only [Bool.not_true, Bool.false_eq_true, if_false, if_true, ite_true,
        ite_false] at h
      repeat' split at h
      all_goals simp_all

/-- Witness for the amended C6 on the concrete one-site commit. -/
theorem commitMessage_matches_code_witness :
    "sites: Update admins. Sites changed: 1 (cmd=pugo sync, src=eactivities)" =
      commitMessageOf msgCexOpts msgCexEnv (eligibleSites msgCexOpts msgCexEnv).length :=
  commitMessage_matches_code msgCexOpts msgCexEnv _ (by decide)

/-- C7: when the working tree is clean after the staging step — in the
model, when no successfully saved record's content differs from the
committed content — `CommitSites` skips the commit and push steps and
returns successfully (given the pipeline reached staging: cache loaded,
worktree acquired, saves and staging succeeding). -/
theorem cleanTree_skips_commit (opts : CommitSitesOptions) (env : CdbEnv)
    (hce : env.cacheLoadError = none) (hwt : env.worktreeOk = true)
    (hsv : ∀ s ∈ eligibleSites opts env, env.saveOk s.Id = true)
    (hst : ∀ f, env.stageOk f = true)
    (hcl : ∀ s ∈ eligibleSites opts env, env.saveDiffers s.Id = false) :
    (CommitSites opts env).1 = Except.ok () ∧
    (CommitSites opts env).2.committed = none ∧
    (CommitSites opts env).2.pushed = false := by
  have hany : ((eligibleSites opts env).any fun s => !env.saveOk s.Id) = false := by
    rw [List.any_eq_false]
    intro s hs
    simp [hsv s hs]
  have hclean :
      ((List.map Site.Id
          (List.filter (fun s => env.saveOk s.Id) (eligibleSites opts env))).all
        fun id => !env.saveDiffers id) = true := by
    rw [List.all_eq_true]
    intro id hid
    rcases List.mem_map.mp hid with ⟨s, hs, rfl⟩
    have := List.mem_filter.mp hs
    simp [hcl s this.1]
  unfold CommitSites
  rw [hce, hwt]
  cases hdr : opts.DryRun with
  | true =>
      cases hfu : opts.ForceUpdateTree with
      | false => simp
      | true => simp [hany, hclean]
  | false =>
      simp [hany, hclean, stageAll_all_ok _ _ hst]

/-- Witness for C7: one dirty site whose save produces no diff. -/
theorem cleanTree_skips_commit_witness :
    (CommitSites msgCexOpts
        { msgCexEnv with saveDiffers := fun _ => false }).1 = Except.ok () ∧
    (CommitSites msgCexOpts
        { msgCexEnv with saveDiffers := fun _ => false }).2.committed = none := by
  have h := cleanTree_skips_commit msgCexOpts
    { msgCexEnv with saveDiffers := fun _ => false }
    rfl rfl (by decide) (fun f => rfl) (by decide)
  exact ⟨h.1, h.2.1⟩

end Pugo

namespace Pugo

/-- C4: `FinishGrant` errors exactly on terminal statuses; otherwise it
runs the conditional update keyed on `(grant id, expected current
status)` and returns `true` exactly when the one matching row was
affected (retargeting only that row), `false` with no error when no row
was in the expected state. -/
theorem finishGrant_conditional_update (a : AccessRecord) (db : NewerpolDb) :
    ((a.RequestStatus = AccessGranted ∨ a.RequestStatus = AccessRevoked) →
        ∃ e, FinishGrant a db = Except.error e)
    ∧ (¬ (a.RequestStatus = AccessGranted ∨ a.RequestStatus = AccessRevoked) →
        db.execFails = false →
        (db.rows a.AccessId = some a.RequestStatus →
            ∃ db', FinishGrant a db = Except.ok (true, db') ∧
              db'.rows a.AccessId =
                some (if a.RequestStatus = AccessGrantPending then AccessGranted
                  else AccessRevoked) ∧
              (∀ id, id ≠ a.AccessId → db'.rows id = db.rows id))
        ∧ (db.rows a.AccessId ≠ some a.RequestStatus →
            FinishGrant a db = Except.ok (false, db))) := by
  constructor
  · intro h
    exact ⟨_, by rw [FinishGrant, if_pos h]⟩
  · intro h hef
    rw [FinishGrant, if_neg h, hef]
    simp only [Bool.false_eq_true, if_false, ite_false]
    constructor
    · intro hrow
      rw [if_pos hrow]
      refine ⟨_, rfl, by simp, fun id hid => by simp [hid]⟩
    · intro hrow
      rw [if_neg hrow]

/-- A pending grant whose ledger row is still in the expected state. -/
def grantRow : AccessRecord :=
  { AccessId := 5, WebsiteId := 42, RequestStatus := AccessGrantPending,
    FirstName := "Ann", LookupName := "Ann L", Login := "al",
    Email := "a@x", CSP := "Chess" }

/-- A one-row ledger table: row 5 is GrantPending. -/
def dbRow : NewerpolDb :=
  { rows := fun id => if id = 5 then some AccessGrantPending else none,
    execFails := false }

/-- Witness for C4: the matching row updates (true); a mismatching id
reports false with no error and leaves the table untouched. -/
theorem finishGrant_conditional_update_witness :
    (FinishGrant grantRow dbRow).map Prod.fst = Except.ok true ∧
    FinishGrant { grantRow with AccessId := 9 } dbRow = Except.ok (false, dbRow) := by
  have h := finishGrant_conditional_update grantRow dbRow
  rcases (h.2 (by decide) rfl).1 (by decide) with ⟨db', heq, h2, h3⟩
  refine ⟨by rw [heq]; rfl, ?_⟩
  have h' := finishGrant_conditional_update { grantRow with AccessId := 9 } dbRow
  exact (h'.2 (by decide) rfl).2 (by decide)

/-- C5: the `sync.Once` cache initialises exactly once — the first call
latches the loaded sites or the first load error; every later call
(directly or through `GetSiteById` / `GetSiteByName` / `GetAllSites`)
returns the latched outcome for any state of the filesystem, leaving the
latch untouched; in particular two consecutive calls return equal
results. -/
theorem sitesCache_init_once (st : SitesCacheState) (w : CdbWorld) :
    (st.result = none →
        ensureSitesCacheLoaded st w =
          (initSitesCache w, { result := some (initSitesCache w) }))
    ∧ (∀ r, st.result = some r → ensureSitesCacheLoaded st w = (r, st))
    ∧ (∀ w' : CdbWorld,
        ensureSitesCacheLoaded (ensureSitesCacheLoaded st w).2 w' =
          ((ensureSitesCacheLoaded st w).1, (ensureSitesCacheLoaded st w).2))
    ∧ (∀ (w' : CdbWorld) (id : Nat),
        (GetSiteById id (ensureSitesCacheLoaded st w).2 w').1 =
          Except.map (fun sites => byId sites id) (ensureSitesCacheLoaded st w).1)
    ∧ (∀ (w' : CdbWorld) (name : String),
        (GetSiteByName name (ensureSitesCacheLoaded st w).2 w').1 =
          Except.map (fun sites => sites.find? (fun s => s.name == name))
            (ensureSitesCacheLoaded st w).1)
    ∧ (∀ w' : CdbWorld,
        (GetAllSites (ensureSitesCacheLoaded st w).2 w').1 =
          (ensureSitesCacheLoaded st w).1) := by
  have hlatch : (ensureSitesCacheLoaded st w).2.result =
      some (ensureSitesCacheLoaded st w).1 := by
    cases hst : st.result <;> simp [ensureSitesCacheLoaded, hst]
  have hsecond : ∀ w' : CdbWorld,
      ensureSitesCacheLoaded (ensureSitesCacheLoaded st w).2 w' =
        ((ensureSitesCacheLoaded st w).1, (ensureSitesCacheLoaded st w).2) := by
    intro w'
    rw [ensureSitesCacheLoaded]
    cases hr : (ensureSitesCacheLoaded st w).2.result with
    | none => rw [hlatch] at hr; exact absurd hr (by simp)
    | some r =>
        rw [hlatch] at hr
        cases hr
        rfl
  refine ⟨?_, ?_, hsecond, ?_, ?_, ?_⟩
  · intro h
    simp [ensureSitesCacheLoaded, h]
  · intro r h
    simp [ensureSitesCacheLoaded, h]
  · intro w' id
    rw [GetSiteById, hsecond w']
    cases (ensureSitesCacheLoaded st w).1 <;> rfl
  · intro w' name
    rw [GetSiteByName, hsecond w']
    cases (ensureSitesCacheLoaded st w).1 <;> rfl
  · intro w'
    rw [GetAllSites, hsecond w']

/-- A sites directory with one loadable record and one skipped file. -/
def cacheWorld : CdbWorld :=
  { cdbPathSet := true,
    dirEntries :=
      Except.ok [DirEntry.skipped, DirEntry.loaded (Site.mk 3 ["alice"] "tri" false)] }

/-- A filesystem whose directory read now fails. -/
def badWorld : CdbWorld :=
  { cdbPathSet := true, dirEntries := Except.error "boom" }

/-- Witness for C5: the first call loads the site; a second call against
a now-broken filesystem still returns the cached result. -/
theorem sitesCache_init_once_witness :
    (ensureSitesCacheLoaded (SitesCacheState.mk none) cacheWorld).1 =
      Except.ok [Site.mk 3 ["alice"] "tri" false] ∧
    (ensureSitesCacheLoaded
        (ensureSitesCacheLoaded (SitesCacheState.mk none) cacheWorld).2 badWorld).1 =
      Except.ok [Site.mk 3 ["alice"] "tri" false] := by
  have h := sitesCache_init_once (SitesCacheState.mk none) cacheWorld
  have h1 := h.1 rfl
  constructor
  · rw [h1]
    rfl
  · rw [h.2.2.1 badWorld, h1]
    rfl

/-- Every email produced by the finalize-and-notify loop requires the
email subsystem enabled and a `FinishGrant` call for the same grant that
returned `updated = true` earlier in the loop's own output. -/
theorem finalizeLoop_emails (opts : SyncOptions) (sendEmails : Bool) (cache : List Site) :
    ∀ (rs : List AccessRecord) (db : NewerpolDb)
      (eo : EmailOptions), eo ∈ (finalizeLoop opts sendEmails cache rs db).2.1 →
      sendEmails = true ∧
      ∃ r, (r, true) ∈ (finalizeLoop opts sendEmails cache rs db).1 ∧
        eo.CSP = r.CSP ∧ eo.EmailName = r.LookupName ∧ eo.FirstName = r.FirstName := by
  intro rs
  induction rs with
  | nil => intro db eo h; simp [finalizeLoop] at h
  | cons r rest ih =>
      intro db eo h
      cases hdry : opts.dryRun with
      | true =>
          rw [finalizeLoop] at h
          simp only [hdry, if_true, ite_true] at h
          rcases ih db eo h with ⟨hs, r', hr', hf⟩
          refine ⟨hs, r', ?_, hf⟩
          rw [finalizeLoop]
          simp only [hdry, if_true, ite_true]
          exact hr'
      | false =>
          rw [finalizeLoop] at h
          simp only [hdry, Bool.false_eq_true, if_false, ite_false] at h
          cases hfg : FinishGrant r db with
          | error e => rw [hfg] at h; simp at h
          | ok p =>
              rw [hfg] at h
              obtain ⟨updated, db'⟩ := p
              simp only [List.mem_append] at h
              have hgoal : (finalizeLoop opts sendEmails cache (r :: rest) db).1 =
                  (r, updated) :: (finalizeLoop opts sendEmails cache rest db').1 := by
                rw [finalizeLoop]
                simp [hdry, hfg]
              cases h with
              | inr hm =>
                  rcases ih db' eo hm with ⟨hs, r', hr', hf⟩
                  exact ⟨hs, r', by rw [hgoal]; exact List.mem_cons_of_mem _ hr', hf⟩
              | inl hm =>
                  by_cases hup : (updated && sendEmails) = true
                  · rw [if_pos hup] at hm
                    have hub := (Bool.and_eq_true _ _).mp hup
                    refine ⟨hub.2, r, ?_, ?_⟩
                    · rw [hgoal, hub.1]
                      exact List.mem_cons_self _ _
                    · cases hbid : byId cache r.WebsiteId with
                      | none => rw [hbid] at hm; simp at hm
                      | some site =>
                          rw [hbid] at hm
                          by_cases hem : r.Email = ""
                          · simp [hem] at hm
                          · simp only [hem, if_neg hem, ite_false] at hm
                            by_cases hov : opts.recipientOverride ≠ ""
                            · rw [if_pos hov] at hm
                              rcases List.mem_singleton.mp hm with rfl
                              exact ⟨rfl, rfl, rfl⟩
                            · rw [if_neg hov] at hm
                              rcases List.mem_singleton.mp hm with rfl
                              exact ⟨rfl, rfl, rfl⟩
                  · rw [if_neg hup] at hm
                    simp at hm

/-- C3: in every sync run, a commit failure means no `FinishGrant` call
and no email; any finalization at all implies the single commit step
succeeded; and every email requires emails enabled (no dry-run, no
`--no-email`, worker started) and a finalization of that same grant that
reported `updated = true`. -/
theorem sync_causal_order (opts : SyncOptions) (ga gr : List (Nat × List AccessRecord))
    (env : CdbEnv) (db : NewerpolDb) (ee : EmailEnv) :
    (∀ e, (doSync opts ga gr env db ee).commitResult = Except.error e →
        (doSync opts ga gr env db ee).finishes = [] ∧
        (doSync opts ga gr env db ee).emails = [])
    ∧ ((doSync opts ga gr env db ee).finishes ≠ [] →
        (doSync opts ga gr env db ee).commitResult = Except.ok ())
    ∧ (∀ eo ∈ (doSync opts ga gr env db ee).emails,
        (!opts.dryRun && !opts.noEmail && ee.startWorkerOk) = true ∧
        ∃ r, (r, true) ∈ (doSync opts ga gr env db ee).finishes ∧
          eo.CSP = r.CSP ∧ eo.EmailName = r.LookupName ∧ eo.FirstName = r.FirstName) := by
  unfold doSync
  split
  · exact ⟨fun e' h => ⟨rfl, rfl⟩, fun h => absurd rfl h, fun eo h => by simp at h⟩
  · dsimp only
    split
    · exact ⟨fun e' h => ⟨rfl, rfl⟩, fun h => absurd rfl h, fun eo h => by simp at h⟩
    · refine ⟨fun e' h => by simp at h, fun h => rfl, fun eo h => ?_⟩
      exact finalizeLoop_emails _ _ _ _ _ eo h

/-- The sync options of a plain `pugo sync` run. -/
def syncOpts0 : SyncOptions :=
  { dryRun := false, forceUpdateTree := false, noPush := false,
    noEmail := false, recipientOverride := "" }

/-- A store with one clean site (id 42) and all I/O succeeding. -/
def syncEnv0 : CdbEnv :=
  { cache := [Site.mk 42 [] "mysite" false], cacheLoadError := none,
    worktreeOk := true, saveOk := fun _ => true, saveDiffers := fun _ => true,
    stageOk := fun _ => true, commitOk := true, pushOk := true,
    newerpolName := "eactivities", newerpolDatabase := "db" }

/-- An email subsystem that starts and sends successfully. -/
def emailEnv0 : EmailEnv :=
  { startWorkerOk := true, sendOk := fun _ => true }

/-- Witness for C3: a run with one add-grant finalizes it, so the commit
step must have succeeded. -/
theorem sync_causal_order_witness :
    (doSync syncOpts0 [(42, [grantRow])] [] syncEnv0 dbRow emailEnv0).commitResult =
      Except.ok () :=
  (sync_causal_order syncOpts0 [(42, [grantRow])] [] syncEnv0 dbRow emailEnv0).2.1
    (by decide)

end Pugo
